import Mathlib

/-!
Verification development for the cfmb repository (src/cf2.py and src/cfpandw.py).

The two front ends share one engine: a `ConfigManager` (account registry and
persisted configuration), a `CFAPIClient` (identifier resolution with a 24h TTL
cache, per-account usage queries, a shared snapshot mapping account names to
results), and a `RefreshThread` (periodic full refresh with single-account
preemption).  The definitions below are a shallow embedding of that engine:

* Python dicts keyed by account name become association lists with the
  insertion-order-preserving update `dictInsert` and first-match `lookup?`.
* `datetime.datetime.fromisoformat` is abstracted as a parameter
  `parseTime : String → Option Int` (UNIX seconds; `none` models a raised
  `ValueError`); `datetime.fromisoformat ""` always raises, which theorems
  record as the hypothesis `parseTime "" = none` where needed.
* HTTP responses are modelled as already-parsed structures; `str` of a raised
  `requests.HTTPError` is abstracted by `httpErrText` of the status code.
* Thread interleavings relevant to the claims are modelled by explicit
  phase-split definitions (`update_all_commit`, `refreshWithConcurrentDelete`)
  and by an observable-states trace (`updateAllTrace`): the source mutates the
  shared snapshot only inside a single `QMutexLocker` critical section, so the
  clear-plus-bulk-update is one observable step.
-/

/-- An account record as stored in `ConfigManager.config["accounts"]`
(src/cf2.py and src/cfpandw.py).  All fields are strings, empty when unset. -/
structure Account where
  name : String
  email : String
  key : String
  api_token : String
  account_id : String
  account_id_cache : String
  cache_update_time : String
  deriving DecidableEq, Repr

/-- The per-account value stored in the snapshot `CFAPIClient.data`: either the
error dict `{"error": msg}` or the success dict
`{"requests": total, "pages": pages, "workers": workers, "account_id": id, "error": ""}`
built at the end of `query_usage_single`. -/
inductive UsageData where
  | err (msg : String)
  | ok (requests pages workers : Nat) (account_id : String)
  deriving DecidableEq, Repr

/-- First-match association-list lookup: the Python `dict` read `m[k]` /
`m.get(k)` for string-keyed dicts. -/
def lookup? {α : Type} (k : String) : List (String × α) → Option α
  | [] => none
  | (k', v) :: rest => if k' = k then some v else lookup? k rest

/-- The Python `dict` write `m[k] = v`: replaces the value in place if the key
is present (keeping its position in insertion order), otherwise appends. -/
def dictInsert {α : Type} (k : String) (v : α) : List (String × α) → List (String × α)
  | [] => [(k, v)]
  | (k', v') :: rest => if k' = k then (k, v) :: rest else (k', v') :: dictInsert k v rest

/-- Request headers built identically in `get_account_id` and
`query_usage_single` (both files): `Content-Type` plus either the Bearer token
(`if api_token:`) or the email/global-key pair. -/
def buildHeaders (email key api_token : String) : List (String × String) :=
  if api_token ≠ "" then
    [("Content-Type", "application/json"), ("Authorization", "Bearer " ++ api_token)]
  else
    [("Content-Type", "application/json"), ("X-AUTH-EMAIL", email), ("X-AUTH-KEY", key)]

/-- One entry of the `/accounts` endpoint's `result` list. -/
structure AccEntry where
  id : String
  name : String
  deriving DecidableEq, Repr

/-- The parsed JSON body and HTTP status of a `GET {base}/accounts` response. -/
structure AccountsResponse where
  status : Nat
  success : Bool
  result : List AccEntry
  deriving DecidableEq, Repr

/-- Abstraction of `str(e)` for the `requests.HTTPError` raised by
`response.raise_for_status()`; the claims never inspect this text. -/
def httpErrText (status : Nat) : String :=
  toString status

/-- The cache check at the top of `get_account_id`: the cached id is returned
iff `cache_id` is non-empty, `cache_time` is non-empty, it parses, and the age
is strictly below `CACHE_EXPIRE_HOURS * 3600 = 86400` seconds.  A parse failure
(`none`) models the swallowed exception (`except: pass`). -/
def cacheValid (parseTime : String → Option Int) (now : Int)
    (cache_id cache_time : String) : Bool :=
  if cache_id = "" then false
  else if cache_time = "" then false
  else
    match parseTime cache_time with
    | some t => decide (now - t < 86400)
    | none => false

/-- Python `str.lower`, modelled character-wise. -/
def strLower (s : String) : String :=
  String.mk (s.data.map Char.toLower)

/-- Python `str.startswith`, modelled on the character lists. -/
def strStarts (s p : String) : Bool :=
  List.isPrefixOf p.data s.data

/-- `next((i for i, acc in enumerate(result) if acc["name"].lower().startswith(email.lower())), 0)`:
index of the first entry whose name case-insensitively starts with the email. -/
def findStartsIdx (email : String) : List AccEntry → Option Nat
  | [] => none
  | e :: rest =>
    if strStarts (strLower e.name) (strLower email) then some 0
    else (findStartsIdx email rest).map (fun i => i + 1)

/-- Outcome of one `get_account_id` call: how many network requests to the
`/accounts` endpoint it made, the headers of that request (`[]` when no request
was made), and the returned id or raised error message. -/
structure ResolveOutcome where
  calls : Nat
  reqHeaders : List (String × String)
  result : Except String String
  deriving Repr

/-- `CFAPIClient.get_account_id` (src/cf2.py lines 561-596, identical logic in
src/cfpandw.py lines 171-206; they differ only in the timeout values).  The
cached branch returns before any request is built; otherwise exactly one GET is
issued and its envelope is checked (`success` truthy and `result` non-empty),
after which the entry selected by `findStartsIdx` (default index 0) is
returned.  All raised exceptions are wrapped with the prefix
`获取Account ID失败: `. -/
def get_account_id (parseTime : String → Option Int) (now : Int)
    (email key api_token cache_id cache_time : String)
    (resp : AccountsResponse) : ResolveOutcome :=
  if cacheValid parseTime now cache_id cache_time then
    { calls := 0, reqHeaders := [], result := .ok cache_id }
  else
    let headers := buildHeaders email key api_token
    if 400 ≤ resp.status then
      { calls := 1, reqHeaders := headers,
        result := .error ("获取Account ID失败: " ++ httpErrText resp.status) }
    else if resp.success = false ∨ resp.result = [] then
      { calls := 1, reqHeaders := headers,
        result := .error "获取Account ID失败: 未获取到账户信息" }
    else
      let idx := (findStartsIdx email resp.result).getD 0
      { calls := 1, reqHeaders := headers,
        result := .ok ((resp.result.getD idx { id := "", name := "" }).id) }

/-- One GraphQL bucket group, reduced to its `sum.requests` count
(`group.get("sum", {}).get("requests", 0)`). -/
structure GQLAccount where
  pagesGroups : List Nat
  workersGroups : List Nat
  deriving DecidableEq, Repr

/-- The parsed body and HTTP status of a `POST {base}/graphql` response. -/
structure GraphQLResponse where
  status : Nat
  errors : List String
  accounts : List GQLAccount
  deriving DecidableEq, Repr

/-- `next(i for i, acc in enumerate(accounts) if acc.get("name") == account_name)`
— NOTE: the source passes no default to `next`, so an empty match raises
`StopIteration` (modelled by `none` at the call site). -/
def findIdxByName (account_name : String) : List Account → Option Nat
  | [] => none
  | acc :: rest =>
    if acc.name = account_name then some 0
    else (findIdxByName account_name rest).map (fun i => i + 1)

/-- `next((acc for acc in accounts if acc.get("name") == account_name), None)`
used by `update_single_account`. -/
def findAccountByName (account_name : String) : List Account → Option Account
  | [] => none
  | acc :: rest =>
    if acc.name = account_name then some acc else findAccountByName account_name rest

/-- Outcome of one `query_usage_single` call: the returned
`{"name": ..., "data": ...}` pair, the number of `/accounts` resolution
requests it issued, the headers of the GraphQL request (`none` when the
GraphQL call was never reached), and the registry index whose cache was
updated via `update_account_cache` (`none` when no write-back happened). -/
structure QueryOutcome where
  name : String
  data : UsageData
  resolveCalls : Nat
  queryHeaders : Option (List (String × String))
  cacheWrite : Option Nat
  deriving Repr

/-- The GraphQL half of `query_usage_single`: headers are rebuilt, the request
is posted, `raise_for_status` checks the status, a non-empty `errors` list or
an empty `accounts` list raises, and otherwise the per-group `sum.requests`
counts of the two categories are summed. -/
def runUsageQuery (email key api_token account_name account_id : String)
    (rcalls : Nat) (cw : Option Nat) (gresp : GraphQLResponse) : QueryOutcome :=
  let headers := buildHeaders email key api_token
  if 400 ≤ gresp.status then
    { name := account_name, data := .err (httpErrText gresp.status),
      resolveCalls := rcalls, queryHeaders := some headers, cacheWrite := cw }
  else
    match gresp.errors with
    | m :: _ =>
      { name := account_name, data := .err ("GraphQL错误: " ++ m),
        resolveCalls := rcalls, queryHeaders := some headers, cacheWrite := cw }
    | [] =>
      match gresp.accounts with
      | [] =>
        { name := account_name, data := .err "未获取到账户使用数据",
          resolveCalls := rcalls, queryHeaders := some headers, cacheWrite := cw }
      | acc :: _ =>
        let pages := acc.pagesGroups.foldl (fun s x => s + x) 0
        let workers := acc.workersGroups.foldl (fun s x => s + x) 0
        { name := account_name, data := .ok (pages + workers) pages workers account_id,
          resolveCalls := rcalls, queryHeaders := some headers, cacheWrite := cw }

/-- `CFAPIClient.query_usage_single` (src/cf2.py lines 598-703, identical logic
in src/cfpandw.py lines 208-313).  `registry` is the list returned by
`config_manager.get_accounts()` at cache-write-back time — under a concurrent
deletion it can differ from the list the account `a` was taken from.  The
branches, in source order: credential validation; explicit `account_id`
short-circuits resolution; otherwise `get_account_id` is called and, on
success, the write-back index is looked up by name — `next` without a default,
so a missing name raises `StopIteration`, which the surrounding
`except Exception` turns into the error dict with message `str(StopIteration())`,
i.e. the empty string; finally the GraphQL query runs. -/
def query_usage_single (parseTime : String → Option Int) (now : Int)
    (registry : List Account) (aresp : AccountsResponse) (gresp : GraphQLResponse)
    (a : Account) : QueryOutcome :=
  let account_name := a.name
  if (a.email = "" ∨ a.key = "") ∧ a.api_token = "" then
    { name := account_name, data := .err "未配置CF凭证（邮箱+Key或API Token）",
      resolveCalls := 0, queryHeaders := none, cacheWrite := none }
  else if a.account_id ≠ "" then
    runUsageQuery a.email a.key a.api_token account_name a.account_id 0 none gresp
  else
    let ro := get_account_id parseTime now a.email a.key a.api_token
      a.account_id_cache a.cache_update_time aresp
    match ro.result with
    | .error e =>
      { name := account_name, data := .err e,
        resolveCalls := ro.calls, queryHeaders := none, cacheWrite := none }
    | .ok aid =>
      match findIdxByName account_name registry with
      | none =>
        -- StopIteration caught by `except Exception as e`; str(e) is "".
        { name := account_name, data := .err "",
          resolveCalls := ro.calls, queryHeaders := none, cacheWrite := none }
      | some i =>
        runUsageQuery a.email a.key a.api_token account_name aid ro.calls (some i) gresp

/-- The shared mutable state the claims range over: the registry lives in
`ConfigManager.config["accounts"]`, the snapshot `data` and the per-account
timestamps `last_update` in `CFAPIClient`. -/
structure ClientState where
  registry : List Account
  data : List (String × UsageData)
  last_update : List (String × Int)
  deriving Repr

/-- `results[result["name"]] = result["data"]` folded over the completion
order of the futures collected by `as_completed`; `q` abstracts
`query_usage_single` (which never raises: every failure path returns an error
dict, so no future is skipped by the `except: continue`). -/
def buildResults (q : Account → UsageData) (order : List Account) :
    List (String × UsageData) :=
  order.foldl (fun m a => dictInsert a.name (q a) m) []

/-- `for name in results: self.last_update[name] = current_time` — only names
present in the fresh results get a new timestamp; stale keys are kept. -/
def updateTimes (now : Int) (results : List (String × UsageData))
    (lu : List (String × Int)) : List (String × Int) :=
  results.foldl (fun m p => dictInsert p.1 now m) lu

/-- The commit half of `update_all_accounts`: `accounts` is the registry list
read at the very start of the refresh, `order` the completion order of the
per-account queries.  `if not accounts: return {}` leaves the shared state
untouched; otherwise, inside one `QMutexLocker` section, `self.data.clear()`
followed by `self.data.update(results)` replaces the snapshot wholesale and
the timestamps of the fresh names are set.  It returns `self.data.copy()`. -/
def update_all_commit (q : Account → UsageData) (order : List Account) (now : Int)
    (accounts : List Account) (st : ClientState) :
    ClientState × List (String × UsageData) :=
  if accounts.isEmpty then (st, [])
  else
    let results := buildResults q order
    ({ st with data := results, last_update := updateTimes now results st.last_update },
     results)

/-- `CFAPIClient.update_all_accounts` (src/cf2.py lines 705-730, identical in
src/cfpandw.py lines 315-340): read the registry, then commit. -/
def update_all_accounts (q : Account → UsageData) (order : List Account) (now : Int)
    (st : ClientState) : ClientState × List (String × UsageData) :=
  update_all_commit q order now st.registry st

/-- The interleaving behind spec Scenario D: `update_all_accounts` reads the
account list, a `ConfigManager.delete_account(i)` (src/cf2.py lines 288-291)
lands while the queries are in flight, and the refresh then commits results
keyed by the pre-read list. -/
def delete_account (i : Nat) (l : List Account) : List Account :=
  if i < l.length then l.eraseIdx i else l

/-- Full refresh with a concurrent account deletion between the registry read
and the snapshot commit. -/
def refreshWithConcurrentDelete (q : Account → UsageData) (order : List Account)
    (now : Int) (i : Nat) (st : ClientState) :
    ClientState × List (String × UsageData) :=
  let accounts := st.registry
  let st' := { st with registry := delete_account i st.registry }
  update_all_commit q order now accounts st'

/-- The values of the shared snapshot `self.data` observable at each step
boundary of one `update_all_accounts` run: one entry for the state after the
registry read, one after each of the `order.length` query completions (the
results accumulate in the local `results` dict, so the shared snapshot is
untouched), and one after the commit.  The clear-plus-bulk-update is a single
observable step because it runs inside one `QMutexLocker(self.mutex)` critical
section and every reader takes the same mutex. -/
def updateAllTrace (q : Account → UsageData) (order : List Account)
    (st : ClientState) : List (List (String × UsageData)) :=
  if st.registry.isEmpty then [st.data]
  else List.replicate (order.length + 1) st.data ++ [buildResults q order]

/-- `CFAPIClient.update_single_account` (src/cf2.py lines 732-746, identical in
src/cfpandw.py lines 342-356): look the account up by name in the current
registry; on a miss return `{}` untouched, otherwise query it and upsert the
single key under the shared lock. -/
def update_single_account (parseTime : String → Option Int) (now tnow : Int)
    (aresp : AccountsResponse) (gresp : GraphQLResponse)
    (account_name : String) (st : ClientState) :
    ClientState × List (String × UsageData) :=
  match findAccountByName account_name st.registry with
  | none => (st, [])
  | some acc =>
    let r := query_usage_single parseTime now st.registry aresp gresp acc
    ({ st with data := dictInsert r.name r.data st.data,
               last_update := dictInsert r.name tnow st.last_update },
     [(r.name, r.data)])

/-- State of `RefreshThread` (src/cf2.py lines 749-792). -/
structure RefreshThreadState where
  is_running : Bool
  target_account : Option String
  deriving Repr

/-- Events the loop emits through its Qt signals. -/
inductive SchedEvent where
  | fullUpdate (snapshot : List (String × UsageData))
  | singleUpdate (name : String) (payload : Option UsageData)
  | errorEvent (msg : String)
  deriving Repr

/-- Number of `msleep(500)` calls performed by the segmented wait
`for _ in range(int(interval * 2)): if not self.is_running or self.target_account: break; self.msleep(500)`
(src/cf2.py lines 778-781).  `iters` is the remaining iteration budget, `i` the
index of the next break check, and a pending single-account request set by
`refresh_single_account` is visible from check index `arrive` on. -/
def waitLoopSleeps (running : Bool) (arrive : Nat) : Nat → Nat → Nat
  | 0, _ => 0
  | n + 1, i =>
    if running = false ∨ arrive ≤ i then 0
    else 1 + waitLoopSleeps running arrive n (i + 1)

/-- One iteration of the `RefreshThread.run` loop body (src/cf2.py lines
763-773): a pending `target_account` is serviced alone — `update_single_account`
runs, `single_update_signal.emit(target, data.get(target, {}))` fires (`none`
models the `{}` default), and the pending request is cleared; otherwise a full
refresh runs and `update_signal` fires.  `q`/`order` abstract the per-account
queries of the full branch as in `update_all_accounts`. -/
def runIteration (parseTime : String → Option Int) (now tnow : Int)
    (aresp : AccountsResponse) (gresp : GraphQLResponse)
    (q : Account → UsageData) (order : List Account)
    (cst : ClientState) (st : RefreshThreadState) :
    RefreshThreadState × ClientState × List SchedEvent :=
  match st.target_account with
  | some name =>
    let res := update_single_account parseTime now tnow aresp gresp name cst
    ({ st with target_account := none }, res.1,
     [SchedEvent.singleUpdate name (lookup? name res.2)])
  | none =>
    let res := update_all_accounts q order tnow cst
    (st, res.1, [SchedEvent.fullUpdate res.2])

/-- Proxy configuration dict (the `"type"` key is called `scheme` here). -/
structure ProxyConfig where
  enable : Bool
  scheme : String
  host : String
  port : String
  username : String
  password : String
  deriving DecidableEq, Repr

/-- The persisted configuration: the four fields `ConfigManager` keeps in
`self.config` and mirrors into SQLite and the JSON backup file. -/
structure AppConfig where
  proxy : ProxyConfig
  refresh_interval : Nat
  request_limit : Nat
  accounts : List Account
  deriving DecidableEq, Repr

/-- Durable state of `ConfigManager` in src/cf2.py: the SQLite `config` table
(key/value rows; the value column is TEXT, abstracted here by `α`), the SQLite
`accounts` table in rowid order, and the JSON backup file.  The serializers
`json.dumps`/`str` and parsers `json.loads`/`int` are abstracted as parameters
of `save_config`/`load_config`, constrained in the theorems by their round-trip
equations. -/
structure StoreState (α : Type) where
  configRows : List (String × α)
  accountRows : List Account
  jsonFile : Option AppConfig
  deriving Repr

/-- The `executemany` over the `accounts` table: rows are inserted one by one
in list order and, since `name` is declared UNIQUE and the connection is in
autocommit mode, the first duplicate name raises and leaves the rows inserted
so far in place. -/
def insertUntilDup (rows : List Account) : List Account → List Account
  | [] => rows
  | a :: rest =>
    if a.name ∈ rows.map Account.name then rows
    else insertUntilDup (rows ++ [a]) rest

/-- `ConfigManager.save_config` (src/cf2.py lines 195-248): under the mutex,
delete both tables, insert the three scalar config rows
(`proxy` JSON-encoded, `refresh_interval` and `request_limit` stringified),
bulk-insert the account list, and — only if no statement raised, i.e. the
account names were unique — start the asynchronous JSON mirror write, which
dumps the same config. -/
def save_config {α : Type} (dumpsP : ProxyConfig → α) (dumpsN : Nat → α)
    (cfg : AppConfig) (st : StoreState α) : StoreState α :=
  { configRows := [("proxy", dumpsP cfg.proxy),
                   ("refresh_interval", dumpsN cfg.refresh_interval),
                   ("request_limit", dumpsN cfg.request_limit)],
    accountRows := insertUntilDup [] cfg.accounts,
    jsonFile := if (cfg.accounts.map Account.name).Nodup then some cfg else st.jsonFile }

/-- The scalar half of `load_config`'s try block: `db_config` is consulted only
when non-empty, each of the three keys is decoded if present, and a decode
failure (`json.loads`/`int` raising) aborts the block with the partially
updated config carried into the `except` handler. -/
def loadScalars {α : Type} (loadsP : α → Option ProxyConfig) (loadsN : α → Option Nat)
    (rows : List (String × α)) (cfg : AppConfig) : Except AppConfig AppConfig :=
  if rows.isEmpty then .ok cfg
  else
    match lookup? "proxy" rows with
    | some v =>
      match loadsP v with
      | none => .error cfg
      | some p => loadScalarsInts loadsN rows { cfg with proxy := p }
    | none => loadScalarsInts loadsN rows cfg
where
  /-- decode `refresh_interval` then `request_limit`. -/
  loadScalarsInts (loadsN : α → Option Nat) (rows : List (String × α))
      (cfg : AppConfig) : Except AppConfig AppConfig :=
    match lookup? "refresh_interval" rows with
    | some v =>
      match loadsN v with
      | none => .error cfg
      | some n =>
        match lookup? "request_limit" rows with
        | some w =>
          match loadsN w with
          | none => .error { cfg with refresh_interval := n }
          | some m => .ok { cfg with refresh_interval := n, request_limit := m }
        | none => .ok { cfg with refresh_interval := n }
    | none =>
      match lookup? "request_limit" rows with
      | some w =>
        match loadsN w with
        | none => .error cfg
        | some m => .ok { cfg with request_limit := m }
      | none => .ok cfg

/-- `ConfigManager.load_config` (src/cf2.py lines 98-153): read the scalar
rows, then replace the account list with the `accounts` table rows (the
`or ''` defaults are identities here since `save_config` always binds
strings); if the resulting account list is empty, fall back to the JSON backup
(`self.config.update(loaded)` replaces all four fields, after which the data
is migrated back into SQLite — the migration does not change the returned
config); if the try block raised, the `except` handler applies the JSON
backup over the partially updated config, or keeps it when no backup exists. -/
def load_config {α : Type} (loadsP : α → Option ProxyConfig) (loadsN : α → Option Nat)
    (st : StoreState α) (init : AppConfig) : AppConfig :=
  match loadScalars loadsP loadsN st.configRows init with
  | .ok c =>
    let c' := { c with accounts := st.accountRows }
    if c'.accounts.isEmpty then
      match st.jsonFile with
      | some j => j
      | none => c'
    else c'
  | .error c =>
    match st.jsonFile with
    | some j => j
    | none => c

/-! ### Concrete fixtures used by witnesses and counterexamples -/

/-- A concrete `fromisoformat` model: `"T"` parses to UNIX second 0, everything
else (in particular `""`) raises. -/
def pT : String → Option Int := fun s => if s = "T" then some 0 else none

/-- A token-mode account with an explicit `account_id`. -/
def accA : Account := ⟨"A", "", "", "tokA", "idA", "", ""⟩

/-- A token-mode account without an explicit `account_id` and with no cache. -/
def accB : Account := ⟨"B", "", "", "tokB", "", "", ""⟩

/-- A second token-mode account with an explicit `account_id`. -/
def accC : Account := ⟨"C", "", "", "tokC", "idC", "", ""⟩

/-- An email+key-mode account (empty token) without an explicit `account_id`
and with no cache. -/
def accD : Account := ⟨"D", "e", "k", "", "", "", ""⟩

/-- A query result used as an abstract per-account outcome. -/
def qBoom : Account → UsageData := fun _ => UsageData.err "boom"

/-- A successful `/accounts` response with one entry. -/
def aresp0 : AccountsResponse := ⟨200, true, [⟨"id1", "acct"⟩]⟩

/-- A successful GraphQL response: one account, one pages bucket of 3 and one
workers bucket of 4. -/
def gresp0 : GraphQLResponse := ⟨200, [], [⟨[3], [4]⟩]⟩

/-- A client state with one registered account and two snapshot entries. -/
def stC6 : ClientState :=
  ⟨[accA], [("A", UsageData.err "old"), ("C", UsageData.err "keep")], [("C", 5)]⟩

/-- Injective serializer fixtures for the persistence round-trip witness: the
TEXT column is instantiated with a tagged value so that both round-trip
equations hold by `rfl`. -/
def dumpsP0 : ProxyConfig → ProxyConfig ⊕ Nat := Sum.inl

/-- Parser fixture matching `dumpsP0`. -/
def loadsP0 : ProxyConfig ⊕ Nat → Option ProxyConfig :=
  fun v => match v with
  | .inl p => some p
  | .inr _ => none

/-- Serializer fixture for the integer scalars. -/
def dumpsN0 : Nat → ProxyConfig ⊕ Nat := Sum.inr

/-- Parser fixture matching `dumpsN0`. -/
def loadsN0 : ProxyConfig ⊕ Nat → Option Nat :=
  fun v => match v with
  | .inl _ => none
  | .inr n => some n

/-- A default proxy configuration. -/
def proxy0 : ProxyConfig := ⟨false, "http", "", "", "", ""⟩

/-- A persisted configuration with one account. -/
def cfg0 : AppConfig := ⟨proxy0, 300, 200000, [accA]⟩

/-- An empty durable store. -/
def store0 : StoreState (ProxyConfig ⊕ Nat) := ⟨[], [], none⟩

/-- The in-memory defaults `ConfigManager.__init__` starts from. -/
def init0 : AppConfig := ⟨proxy0, 300, 200000, []⟩

/-! ### Association-list lemmas for the Python-dict model -/

theorem lookup?_dictInsert_self {α : Type} (k : String) (v : α)
    (m : List (String × α)) : lookup? k (dictInsert k v m) = some v := by
  induction m with
  | nil => simp [dictInsert, lookup?]
  | cons p rest ih =>
    obtain ⟨k', v'⟩ := p
    by_cases h : k' = k
    · subst h
      simp [dictInsert, lookup?]
    · simp [dictInsert, lookup?, h, ih]

theorem lookup?_dictInsert_ne {α : Type} {j k : String} (hjk : j ≠ k) (v : α)
    (m : List (String × α)) : lookup? j (dictInsert k v m) = lookup? j m := by
  induction m with
  | nil => simp [dictInsert, lookup?, Ne.symm hjk]
  | cons p rest ih =>
    obtain ⟨k', v'⟩ := p
    by_cases h : k' = k
    · subst h
      simp [dictInsert, lookup?, Ne.symm hjk]
    · simp [dictInsert, lookup?, h, ih]

theorem dictInsert_of_fresh {α : Type} {k : String} (v : α)
    {m : List (String × α)} (h : k ∉ m.map Prod.fst) :
    dictInsert k v m = m ++ [(k, v)] := by
  induction m with
  | nil => rfl
  | cons p rest ih =>
    obtain ⟨k', v'⟩ := p
    simp only [List.map_cons, List.mem_cons] at h
    push_neg at h
    simp [dictInsert, Ne.symm h.1, ih h.2]

theorem lookup?_buildFold_not_mem (q : Account → UsageData) (k : String) :
    ∀ (order : List Account) (m : List (String × UsageData)),
      k ∉ order.map Account.name →
      lookup? k (order.foldl (fun m a => dictInsert a.name (q a) m) m) = lookup? k m := by
  intro order
  induction order with
  | nil => intro m _; rfl
  | cons a rest ih =>
    intro m hk
    simp only [List.map_cons, List.mem_cons] at hk
    push_neg at hk
    rw [List.foldl_cons, ih _ hk.2, lookup?_dictInsert_ne hk.1]

theorem lookup?_buildFold_mem (q : Account → UsageData) :
    ∀ (order : List Account) (m : List (String × UsageData)) (a : Account),
      a ∈ order → (order.map Account.name).Nodup →
      lookup? a.name (order.foldl (fun m a => dictInsert a.name (q a) m) m) = some (q a) := by
  intro order
  induction order with
  | nil => intro m a ha _; cases ha
  | cons b rest ih =>
    intro m a ha hnd
    simp only [List.map_cons, List.nodup_cons] at hnd
    rcases List.mem_cons.mp ha with hab | ha'
    · subst hab
      rw [List.foldl_cons, lookup?_buildFold_not_mem q _ _ _ hnd.1,
        lookup?_dictInsert_self]
    · exact ih _ a ha' hnd.2

theorem mem_of_lookup?_buildFold (q : Account → UsageData) :
    ∀ (order : List Account) (m : List (String × UsageData)) (k : String),
      lookup? k (order.foldl (fun m a => dictInsert a.name (q a) m) m) ≠ none →
      k ∈ order.map Account.name ∨ lookup? k m ≠ none := by
  intro order
  induction order with
  | nil => intro m k h; exact Or.inr h
  | cons b rest ih =>
    intro m k h
    rw [List.foldl_cons] at h
    rcases ih _ k h with hmem | hm
    · exact Or.inl (List.mem_cons_of_mem _ hmem)
    · by_cases hk : k = b.name
      · exact Or.inl (hk ▸ List.mem_cons_self _ _)
      · rw [lookup?_dictInsert_ne hk] at hm
        exact Or.inr hm

theorem length_buildFold (q : Account → UsageData) :
    ∀ (order : List Account) (m : List (String × UsageData)),
      (order.map Account.name).Nodup →
      (∀ a ∈ order, a.name ∉ m.map Prod.fst) →
      (order.foldl (fun m a => dictInsert a.name (q a) m) m).length =
        m.length + order.length := by
  intro order
  induction order with
  | nil => intro m _ _; rfl
  | cons b rest ih =>
    intro m hnd hfresh
    simp only [List.map_cons, List.nodup_cons] at hnd
    rw [List.foldl_cons,
      dictInsert_of_fresh _ (hfresh b (List.mem_cons_self _ _)),
      ih _ hnd.2 ?_]
    · simp [Nat.add_assoc, Nat.add_comm 1]
    · intro a ha
      simp only [List.map_append, List.map_cons, List.map_nil, List.mem_append,
        List.mem_singleton]
      push_neg
      refine ⟨hfresh a (List.mem_cons_of_mem _ ha), ?_⟩
      intro hcontra
      exact hnd.1 (hcontra ▸ List.mem_map_of_mem Account.name ha)

/-! ### Helper lemmas about the embedded operations -/

theorem runUsageQuery_name (email key api_token account_name account_id : String)
    (rcalls : Nat) (cw : Option Nat) (gresp : GraphQLResponse) :
    (runUsageQuery email key api_token account_name account_id rcalls cw gresp).name =
      account_name := by
  unfold runUsageQuery
  split
  · rfl
  · split
    · rfl
    · split <;> rfl

theorem query_usage_single_name (parseTime : String → Option Int) (now : Int)
    (registry : List Account) (aresp : AccountsResponse) (gresp : GraphQLResponse)
    (a : Account) :
    (query_usage_single parseTime now registry aresp gresp a).name = a.name := by
  unfold query_usage_single
  dsimp only
  split
  · rfl
  · split
    · exact runUsageQuery_name ..
    · split
      · rfl
      · split
        · rfl
        · exact runUsageQuery_name ..

theorem findAccountByName_name {n : String} :
    ∀ {l : List Account} {a : Account}, findAccountByName n l = some a → a.name = n := by
  intro l
  induction l with
  | nil => intro a h; cases h
  | cons b rest ih =>
    intro a h
    by_cases hb : b.name = n
    · simp [findAccountByName, hb] at h
      exact h ▸ hb
    · simp [findAccountByName, hb] at h
      exact ih h

theorem findIdxByName_eq_none {n : String} :
    ∀ {l : List Account}, (∀ b ∈ l, b.name ≠ n) → findIdxByName n l = none := by
  intro l
  induction l with
  | nil => intro _; rfl
  | cons b rest ih =>
    intro h
    simp [findIdxByName, h b (List.mem_cons_self _ _), ih fun c hc => h c (List.mem_cons_of_mem _ hc)]

theorem waitLoopSleeps_running (arrive : Nat) :
    ∀ (n i : Nat), waitLoopSleeps true arrive n i = min (arrive - i) n := by
  intro n
  induction n with
  | zero => intro i; simp [waitLoopSleeps]
  | succ n ih =>
    intro i
    by_cases h : arrive ≤ i
    · simp [waitLoopSleeps, h, Nat.sub_eq_zero_of_le h]
    · have hcond : ¬(true = false ∨ arrive ≤ i) := by simp [h]
      simp only [waitLoopSleeps]
      rw [if_neg hcond, ih (i + 1)]
      omega

theorem map_eraseIdx_comm {β γ : Type} (f : β → γ) :
    ∀ (l : List β) (i : Nat), (l.eraseIdx i).map f = (l.map f).eraseIdx i := by
  intro l
  induction l with
  | nil => intro i; rfl
  | cons x xs ih =>
    intro i
    cases i with
    | zero => rfl
    | succ j => simp [List.eraseIdx, ih j]

theorem get_not_mem_eraseIdx {β : Type} [DecidableEq β] :
    ∀ (L : List β), L.Nodup → ∀ (i : Nat) (h : i < L.length),
      L.get ⟨i, h⟩ ∉ L.eraseIdx i := by
  intro L
  induction L with
  | nil => intro _ i h; exact absurd h (Nat.not_lt_zero i)
  | cons x xs ih =>
    intro hnd i h
    obtain ⟨hx, hxs⟩ := List.nodup_cons.mp hnd
    cases i with
    | zero => simpa [List.eraseIdx] using hx
    | succ j =>
      have hj : j < xs.length := Nat.lt_of_succ_lt_succ h
      intro hmem
      simp only [List.eraseIdx, List.get_cons_succ, List.mem_cons] at hmem
      rcases hmem with hgx | hge
      · exact hx (hgx ▸ xs.get_mem _ _)
      · exact ih hxs j hj hge

theorem insertUntilDup_eq_append :
    ∀ (l rows : List Account),
      (rows.map Account.name ++ l.map Account.name).Nodup →
      insertUntilDup rows l = rows ++ l := by
  intro l
  induction l with
  | nil => intro rows _; simp [insertUntilDup]
  | cons a rest ih =>
    intro rows h
    have ha : a.name ∉ rows.map Account.name := by
      intro hmem
      have hdisj := (List.nodup_append.mp h).2.2
      exact hdisj hmem (by simp)
    rw [insertUntilDup, if_neg ha, ih (rows ++ [a]) (by simpa using h)]
    simp

theorem runUsageQuery_headers (email key api_token account_name account_id : String)
    (rcalls : Nat) (cw : Option Nat) (gresp : GraphQLResponse) :
    (runUsageQuery email key api_token account_name account_id rcalls cw gresp).queryHeaders =
      some (buildHeaders email key api_token) := by
  unfold runUsageQuery
  split
  · rfl
  · split
    · rfl
    · split <;> rfl

/-! ### Claim theorems -/

/-- C9: when the registry's account list is empty, `update_all_accounts`
returns the empty mapping (`if not accounts: return {}`) and leaves every
existing snapshot entry and every `last_update` timestamp unchanged — the
snapshot is not cleared, so stale entries from earlier refreshes survive an
all-accounts deletion. -/
theorem empty_registry_refresh_noop (q : Account → UsageData) (order : List Account)
    (now : Int) (d : List (String × UsageData)) (lu : List (String × Int)) :
    update_all_accounts q order now ⟨[], d, lu⟩ = (⟨[], d, lu⟩, []) := rfl

/-- C10: whenever `api_token` is non-empty, the headers built by both
`get_account_id` and `query_usage_single` carry the Bearer authorization and
omit the `X-AUTH-EMAIL`/`X-AUTH-KEY` pair, even when email and key are also
non-empty: every network request of the two functions either uses exactly these
token-mode headers or is not made at all. -/
theorem token_mode_precedence (email key api_token : String) (h : api_token ≠ "") :
    buildHeaders email key api_token =
      [("Content-Type", "application/json"), ("Authorization", "Bearer " ++ api_token)]
    ∧ lookup? "Authorization" (buildHeaders email key api_token) =
        some ("Bearer " ++ api_token)
    ∧ lookup? "X-AUTH-EMAIL" (buildHeaders email key api_token) = none
    ∧ lookup? "X-AUTH-KEY" (buildHeaders email key api_token) = none
    ∧ (∀ (parseTime : String → Option Int) (now : Int) (cache_id cache_time : String)
        (resp : AccountsResponse),
        (get_account_id parseTime now email key api_token cache_id cache_time resp).reqHeaders = []
        ∨ (get_account_id parseTime now email key api_token cache_id cache_time resp).reqHeaders =
            buildHeaders email key api_token)
    ∧ (∀ (parseTime : String → Option Int) (now : Int) (registry : List Account)
        (aresp : AccountsResponse) (gresp : GraphQLResponse) (a : Account),
        a.email = email → a.key = key → a.api_token = api_token →
        (query_usage_single parseTime now registry aresp gresp a).queryHeaders = none
        ∨ (query_usage_single parseTime now registry aresp gresp a).queryHeaders =
            some (buildHeaders email key api_token)) := by
  have hb : buildHeaders email key api_token =
      [("Content-Type", "application/json"), ("Authorization", "Bearer " ++ api_token)] := by
    rw [buildHeaders, if_pos h]
  refine ⟨hb, ?_, ?_, ?_, ?_, ?_⟩
  · rw [hb]
    simp [lookup?]
  · rw [hb]
    simp [lookup?]
  · rw [hb]
    simp [lookup?]
  · intro parseTime now cache_id cache_time resp
    unfold get_account_id
    split
    · exact Or.inl rfl
    · dsimp only
      split
      · exact Or.inr rfl
      · split
        · exact Or.inr rfl
        · exact Or.inr rfl
  · intro parseTime now registry aresp gresp a he hk ht
    subst he; subst hk; subst ht
    unfold query_usage_single
    dsimp only
    split
    · exact Or.inl rfl
    · split
      · exact Or.inr (runUsageQuery_headers ..)
      · split
        · exact Or.inl rfl
        · split
          · exact Or.inl rfl
          · exact Or.inr (runUsageQuery_headers ..)

/-- Witness for C10 at a concrete input. -/
theorem token_mode_precedence_witness :
    "tok" ≠ "" ∧ lookup? "X-AUTH-EMAIL" (buildHeaders "e" "k" "tok") = none :=
  ⟨by decide, (token_mode_precedence "e" "k" "tok" (by decide)).2.2.1⟩

/-- C3: if the cached identifier is non-empty and the cache timestamp parses to
an instant less than 24 hours (86400 s) old, `get_account_id` returns the
cached id with zero network calls; if the cache timestamp is empty or parses to
an instant at least 24 hours old, it performs exactly one call to the
`/accounts` endpoint.  `hp` records that `fromisoformat ""` raises. -/
theorem resolve_cache_ttl_network_calls (parseTime : String → Option Int) (now : Int)
    (email key api_token cache_id cache_time : String) (resp : AccountsResponse)
    (hp : parseTime "" = none) :
    (∀ t : Int, cache_id ≠ "" → parseTime cache_time = some t → now - t < 86400 →
      (get_account_id parseTime now email key api_token cache_id cache_time resp).calls = 0 ∧
      (get_account_id parseTime now email key api_token cache_id cache_time resp).result =
        .ok cache_id)
    ∧ ((cache_time = "" ∨ ∃ t : Int, parseTime cache_time = some t ∧ 86400 ≤ now - t) →
      (get_account_id parseTime now email key api_token cache_id cache_time resp).calls = 1) := by
  constructor
  · intro t hid ht hfresh
    have hct : cache_time ≠ "" := by
      intro hc
      rw [hc, hp] at ht
      cases ht
    have hv : cacheValid parseTime now cache_id cache_time = true := by
      simp [cacheValid, hid, hct, ht, hfresh]
    constructor <;> simp [get_account_id, hv]
  · intro hcase
    have hv : cacheValid parseTime now cache_id cache_time = false := by
      rcases hcase with hct | ⟨t, ht, hstale⟩
      · simp [cacheValid, hct]
      · have hns : (now - t < 86400) = False := eq_false (not_lt.mpr hstale)
        simp [cacheValid, ht, hns]
    simp only [get_account_id, hv, Bool.false_eq_true, if_false]
    split
    · rfl
    · split <;> rfl

/-- Witness for C3: a fresh cache resolves with zero calls; a 25h-old cache
(now = 90000 s, cached at 0) issues exactly one call. -/
theorem resolve_cache_ttl_network_calls_witness :
    ((get_account_id pT 1000 "e" "k" "tok" "cid" "T" ⟨200, true, []⟩).calls = 0
      ∧ (get_account_id pT 1000 "e" "k" "tok" "cid" "T" ⟨200, true, []⟩).result = .ok "cid")
    ∧ (get_account_id pT 90000 "e" "k" "tok" "cid" "T" ⟨200, true, []⟩).calls = 1 :=
  ⟨(resolve_cache_ttl_network_calls pT 1000 "e" "k" "tok" "cid" "T" ⟨200, true, []⟩
      (by decide)).1 0 (by decide) (by decide) (by decide),
   (resolve_cache_ttl_network_calls pT 90000 "e" "k" "tok" "cid" "T" ⟨200, true, []⟩
      (by decide)).2 (Or.inr ⟨0, by decide, by decide⟩)⟩

theorem getD_replicate_append {β : Type} (x y dflt : β) :
    ∀ (n j : Nat), j ≤ n → ((List.replicate (n + 1) x) ++ [y]).getD j dflt = x := by
  intro n
  induction n with
  | zero =>
    intro j hj
    have hj0 : j = 0 := Nat.le_zero.mp hj
    subst hj0
    rfl
  | succ n ih =>
    intro j hj
    cases j with
    | zero => rfl
    | succ i => exact ih i (Nat.le_of_succ_le_succ hj)

/-- C2: during one `update_all_accounts` run, every observable state of the
shared snapshot is either the complete pre-refresh mapping or the complete
post-refresh mapping (never a mix); all states up to and including the
completion of the last per-account query still show the pre-refresh mapping
(the commit happens only after every query has completed); and the final
observable state is exactly the snapshot the commit installs. -/
theorem refresh_snapshot_atomic_replace (q : Account → UsageData)
    (order : List Account) (st : ClientState)
    (horder : order.Perm st.registry) :
    (∀ d ∈ updateAllTrace q order st, d = st.data ∨ d = buildResults q order)
    ∧ (∀ j, j ≤ order.length → (updateAllTrace q order st).getD j [] = st.data)
    ∧ (∀ now : Int, (updateAllTrace q order st).getLast? =
        some ((update_all_accounts q order now st).1.data)) := by
  by_cases hreg : st.registry = []
  · have hord : order = [] := (hreg ▸ horder).eq_nil
    refine ⟨?_, ?_, ?_⟩
    · intro d hd
      simp [updateAllTrace, hreg] at hd
      exact Or.inl hd
    · intro j hj
      rw [hord] at hj
      have hj0 : j = 0 := Nat.le_zero.mp hj
      subst hj0
      simp [updateAllTrace, hreg]
    · intro now
      simp [updateAllTrace, update_all_accounts, update_all_commit, hreg]
  · have hne : st.registry.isEmpty = false := by
      cases h : st.registry with
      | nil => exact absurd h hreg
      | cons a l => rfl
    refine ⟨?_, ?_, ?_⟩
    · intro d hd
      unfold updateAllTrace at hd
      rw [hne] at hd
      simp only [Bool.false_eq_true, if_false, List.mem_append,
        List.mem_singleton] at hd
      rcases hd with h1 | h2
      · exact Or.inl (List.eq_of_mem_replicate h1)
      · exact Or.inr h2
    · intro j hj
      unfold updateAllTrace
      rw [hne]
      simp only [Bool.false_eq_true, if_false]
      exact getD_replicate_append _ _ _ order.length j hj
    · intro now
      unfold updateAllTrace update_all_accounts update_all_commit
      rw [hne]
      simp only [Bool.false_eq_true, if_false]
      rw [List.getLast?_concat]

/-- Witness for C2 at a concrete input: before the commit the observable
snapshot is still the pre-refresh one. -/
theorem refresh_snapshot_atomic_replace_witness :
    (updateAllTrace qBoom [accA] ⟨[accA], [("A", UsageData.err "old")], []⟩).getD 1 [] =
      (ClientState.mk [accA] [("A", UsageData.err "old")] []).data :=
  (refresh_snapshot_atomic_replace qBoom [accA] ⟨[accA], [("A", UsageData.err "old")], []⟩
    (List.Perm.refl _)).2.1 1 (by decide)

/-- C5: a full refresh over a registry of N accounts with pairwise distinct
names returns a results mapping with exactly N entries, one per input account
(the entry for each account is exactly its query result, whatever the
completion order of the futures), and each per-account result is by
construction either an error-bearing dict or a success dict — a per-account
failure never removes an entry and never aborts sibling queries (the query
function is total). -/
theorem refresh_all_one_entry_per_account (q : Account → UsageData)
    (st : ClientState) (order : List Account) (now : Int)
    (horder : order.Perm st.registry)
    (hnd : (st.registry.map Account.name).Nodup) :
    (update_all_accounts q order now st).2.length = st.registry.length
    ∧ (∀ a ∈ st.registry,
        lookup? a.name (update_all_accounts q order now st).2 = some (q a))
    ∧ (∀ a ∈ st.registry,
        (∃ msg, q a = UsageData.err msg)
        ∨ ∃ r p w i, q a = UsageData.ok r p w i) := by
  have hndo : (order.map Account.name).Nodup :=
    ((horder.map Account.name).nodup_iff).mpr hnd
  by_cases hreg : st.registry = []
  · refine ⟨?_, ?_, ?_⟩
    · simp [update_all_accounts, update_all_commit, hreg]
    · intro a ha
      rw [hreg] at ha
      cases ha
    · intro a ha
      rw [hreg] at ha
      cases ha
  · have hne : st.registry.isEmpty = false := by
      cases h : st.registry with
      | nil => exact absurd h hreg
      | cons a l => rfl
    unfold update_all_accounts update_all_commit
    rw [hne]
    simp only [Bool.false_eq_true, if_false]
    refine ⟨?_, ?_, ?_⟩
    · unfold buildResults
      rw [length_buildFold q order [] hndo (fun a _ => List.not_mem_nil a.name)]
      simpa using horder.length_eq
    · intro a ha
      exact lookup?_buildFold_mem q order [] a (horder.mem_iff.mpr ha) hndo
    · intro a _
      cases hq : q a with
      | err msg => exact Or.inl ⟨msg, rfl⟩
      | ok r p w i => exact Or.inr ⟨r, p, w, i, rfl⟩

/-- Witness for C5: one account, one entry. -/
theorem refresh_all_one_entry_per_account_witness :
    (update_all_accounts qBoom [accA] 0 ⟨[accA], [], []⟩).2.length =
      (ClientState.mk [accA] [] []).registry.length :=
  (refresh_all_one_entry_per_account qBoom ⟨[accA], [], []⟩ [accA] 0
    (List.Perm.refl _) (by decide)).1

/-- C6: a single-account refresh of a name X present in the registry upserts
only the snapshot entry and last-update timestamp keyed by X (the key written
is the queried account's own name, which equals X by the registry lookup):
every other key keeps its previous value and its previous timestamp, for any
world the query runs against. -/
theorem refresh_one_frame (parseTime : String → Option Int) (now tnow : Int)
    (aresp : AccountsResponse) (gresp : GraphQLResponse) (x : String)
    (st : ClientState) (_hx : x ∈ st.registry.map Account.name) :
    ∀ y, y ≠ x →
      lookup? y (update_single_account parseTime now tnow aresp gresp x st).1.data =
        lookup? y st.data
      ∧ lookup? y (update_single_account parseTime now tnow aresp gresp x st).1.last_update =
        lookup? y st.last_update := by
  intro y hy
  unfold update_single_account
  cases hfind : findAccountByName x st.registry with
  | none => exact ⟨rfl, rfl⟩
  | some acc =>
    dsimp only
    have hname : (query_usage_single parseTime now st.registry aresp gresp acc).name = x := by
      rw [query_usage_single_name]
      exact findAccountByName_name hfind
    refine ⟨?_, ?_⟩ <;> rw [hname] <;> exact lookup?_dictInsert_ne hy _ _

/-- Witness for C6: refreshing "A" leaves the entry and timestamp of "C"
untouched. -/
theorem refresh_one_frame_witness :
    lookup? "C" (update_single_account pT 0 0 aresp0 gresp0 "A" stC6).1.data =
      lookup? "C" stC6.data
    ∧ lookup? "C" (update_single_account pT 0 0 aresp0 gresp0 "A" stC6).1.last_update =
      lookup? "C" stC6.last_update :=
  refresh_one_frame pT 0 0 aresp0 gresp0 "A" stC6 (by decide) "C" (by decide)

/-- Counterexample to C1 as stated: with one registered account "A", a full
refresh reads the account list, the deletion of "A" lands while the refresh is
in flight, and the completed refresh still installs a snapshot containing "A"
even though the registry is now empty — the snapshot is NOT reconciled against
the current registry after the queries return, so it does not contain "at most
the accounts currently in the registry". -/
theorem snapshot_after_inflight_delete_counterexample :
    ¬ (∀ k : String,
        lookup? k (refreshWithConcurrentDelete qBoom [accA] 0 0
          ⟨[accA], [], []⟩).1.data ≠ none →
        k ∈ ((refreshWithConcurrentDelete qBoom [accA] 0 0
          ⟨[accA], [], []⟩).1.registry.map Account.name)) := by
  intro h
  have h2 := h "A" (by decide)
  exact absurd h2 (by decide)

/-- C1 (amended): a deletion is reflected in the first full refresh that starts
after it — for a refresh over the post-deletion registry (provided it is
non-empty; an empty registry makes the refresh an early-return no-op, see the
C9 theorem), the resulting snapshot contains at most the accounts currently in
the registry, and in particular (for unique names) no longer contains the
deleted account.  A refresh already in flight when the deletion occurred still
installs the deleted account's entry until that next refresh (see the
counterexample). -/
theorem snapshot_reconciles_with_preread_registry
    (q : Account → UsageData) (order : List Account) (now : Int) (i : Nat)
    (st : ClientState)
    (horder : order.Perm (delete_account i st.registry))
    (hne : delete_account i st.registry ≠ []) :
    (∀ k, lookup? k (update_all_accounts q order now
        { st with registry := delete_account i st.registry }).1.data ≠ none →
      k ∈ (delete_account i st.registry).map Account.name)
    ∧ ((st.registry.map Account.name).Nodup → ∀ h : i < st.registry.length,
        lookup? ((st.registry.get ⟨i, h⟩).name)
          (update_all_accounts q order now
            { st with registry := delete_account i st.registry }).1.data = none) := by
  have hemp : (delete_account i st.registry).isEmpty = false := by
    cases h : delete_account i st.registry with
    | nil => exact absurd h hne
    | cons a l => rfl
  have hmain : ∀ k, lookup? k (update_all_accounts q order now
      { st with registry := delete_account i st.registry }).1.data ≠ none →
      k ∈ (delete_account i st.registry).map Account.name := by
    intro k hk
    unfold update_all_accounts update_all_commit at hk
    rw [hemp] at hk
    simp only [Bool.false_eq_true, if_false] at hk
    unfold buildResults at hk
    rcases mem_of_lookup?_buildFold q order [] k hk with hmem | hcontra
    · exact ((horder.map Account.name).mem_iff).mp hmem
    · exact absurd rfl hcontra
  refine ⟨hmain, ?_⟩
  intro hnd hi
  by_contra hcon
  have hmem := hmain _ hcon
  rw [delete_account, if_pos hi, map_eraseIdx_comm] at hmem
  have hget : (st.registry.map Account.name).get
      ⟨i, by simpa using hi⟩ = (st.registry.get ⟨i, hi⟩).name := by
    simp
  exact get_not_mem_eraseIdx (st.registry.map Account.name) hnd i
    (by simpa using hi) (hget ▸ hmem)

/-- Witness for the amended C1: deleting the second of two accounts and then
refreshing over the remaining registry leaves no snapshot entry for the
deleted name. -/
theorem snapshot_reconciles_with_preread_registry_witness :
    lookup? (((ClientState.mk [accA, accC] [] []).registry.get ⟨1, by decide⟩).name)
      (update_all_accounts qBoom [accA] 0
        { ClientState.mk [accA, accC] [] [] with
          registry := delete_account 1 [accA, accC] }).1.data = none :=
  (snapshot_reconciles_with_preread_registry qBoom [accA] 0 1 ⟨[accA, accC], [], []⟩
    (by decide) (by decide)).2 (by decide) (by decide)

/-- Counterexample to C4 as stated: account "B" (no explicit `accountId`)
resolves successfully, but the registry no longer contains "B" at write-back
time.  The claim says the cache update is silently dropped and the usage query
continues to its normal result; in the source, however, the name-indexed
lookup is `next(...)` WITHOUT a default, so it raises `StopIteration`, which
the surrounding `except Exception` converts into an error result (whose
message, `str(StopIteration())`, is the empty string) — the query does not
continue.  Had it continued, the result here would have been the success dict
`ok 7 3 4 "id1"`. -/
theorem cache_writeback_after_delete_counterexample :
    (query_usage_single pT 0 [] aresp0 gresp0 accB).data = UsageData.err ""
    ∧ ¬ ∃ r p w i, (query_usage_single pT 0 [] aresp0 gresp0 accB).data =
        UsageData.ok r p w i := by
  refine ⟨by decide, ?_⟩
  rintro ⟨r, p, w, i, hcon⟩
  rw [(by decide :
    (query_usage_single pT 0 [] aresp0 gresp0 accB).data = UsageData.err "")] at hcon
  simp at hcon

/-- C4 (amended): for every account with no explicit `accountId` that passes
the credential gate (either mode: non-empty email+key, or non-empty token)
and whose identifier resolution succeeds, if the account has been deleted from
the registry before the cache write-back (the name-indexed lookup finds no
entry), the cache update is dropped AND the usage query aborts with the error
result carrying the caught `StopIteration`'s empty message — it does not
continue to the GraphQL call.  `hcred` is exactly the negation of the source's
credential check `if not (email and key) and not api_token`. -/
theorem cache_writeback_after_delete_errors (parseTime : String → Option Int)
    (now : Int) (registry : List Account) (aresp : AccountsResponse)
    (gresp : GraphQLResponse) (a : Account) (aid : String)
    (hid : a.account_id = "")
    (hcred : ¬ ((a.email = "" ∨ a.key = "") ∧ a.api_token = ""))
    (hres : (get_account_id parseTime now a.email a.key a.api_token
        a.account_id_cache a.cache_update_time aresp).result = .ok aid)
    (hreg : ∀ b ∈ registry, b.name ≠ a.name) :
    (query_usage_single parseTime now registry aresp gresp a).data = UsageData.err ""
    ∧ (query_usage_single parseTime now registry aresp gresp a).cacheWrite = none
    ∧ (query_usage_single parseTime now registry aresp gresp a).queryHeaders = none := by
  unfold query_usage_single
  dsimp only
  rw [if_neg hcred]
  have hc2 : ¬ (a.account_id ≠ "") := by simp [hid]
  rw [if_neg hc2, hres, findIdxByName_eq_none hreg]
  exact ⟨rfl, rfl, rfl⟩

/-- Witness for the amended C4 at an email+key-mode account: the registry
holds only "C", so the write-back for "D" finds no entry. -/
theorem cache_writeback_after_delete_errors_witness :
    (query_usage_single pT 0 [accC] aresp0 gresp0 accD).data = UsageData.err ""
    ∧ (query_usage_single pT 0 [accC] aresp0 gresp0 accD).cacheWrite = none
    ∧ (query_usage_single pT 0 [accC] aresp0 gresp0 accD).queryHeaders = none :=
  cache_writeback_after_delete_errors pT 0 [accC] aresp0 gresp0 accD "id1"
    rfl (by decide) rfl (by decide)

/-- C7: saving a configuration whose account names are unique and then loading
yields the same configuration in all fields — proxy, refresh interval, request
limit, and the account list including its order and each account's cache
fields.  `hP`/`hN` are the round-trip equations of the
`json.dumps`/`json.loads` and `str`/`int` codecs the source applies to the
TEXT column.  (With an empty account list the load path falls back to the JSON
mirror, which `save_config` has just written with the same data, so the result
is unchanged.) -/
theorem save_load_roundtrip {α : Type} (dumpsP : ProxyConfig → α)
    (loadsP : α → Option ProxyConfig) (dumpsN : Nat → α) (loadsN : α → Option Nat)
    (hP : ∀ p, loadsP (dumpsP p) = some p) (hN : ∀ n, loadsN (dumpsN n) = some n)
    (cfg : AppConfig) (st : StoreState α) (init : AppConfig)
    (hnd : (cfg.accounts.map Account.name).Nodup) :
    load_config loadsP loadsN (save_config dumpsP dumpsN cfg st) init = cfg := by
  have hrows : insertUntilDup [] cfg.accounts = cfg.accounts := by
    simpa using insertUntilDup_eq_append cfg.accounts [] (by simpa using hnd)
  have hscal : loadScalars loadsP loadsN
      [("proxy", dumpsP cfg.proxy), ("refresh_interval", dumpsN cfg.refresh_interval),
       ("request_limit", dumpsN cfg.request_limit)] init =
      .ok { init with
            proxy := cfg.proxy
            refresh_interval := cfg.refresh_interval
            request_limit := cfg.request_limit } := by
    unfold loadScalars loadScalars.loadScalarsInts
    simp [lookup?, hP, hN]
  unfold save_config load_config
  dsimp only
  rw [hscal]
  dsimp only
  rw [hrows]
  cases hacc : cfg.accounts.isEmpty with
  | true =>
    rw [if_pos hnd]
    rfl
  | false => rfl

/-- Witness for C7 with the tagged-value codecs (both round-trip equations hold
by `rfl`) and a one-account configuration. -/
theorem save_load_roundtrip_witness :
    load_config loadsP0 loadsN0 (save_config dumpsP0 dumpsN0 cfg0 store0) init0 = cfg0 :=
  save_load_roundtrip dumpsP0 loadsP0 dumpsN0 loadsN0 (fun p => rfl) (fun n => rfl)
    cfg0 store0 init0 (by decide)

/-- C8: while the loop is in its segmented idle wait, a pending single-account
request set by `refresh_single_account("B")` breaks the wait at the very next
break check — the number of `msleep(500)` calls is `min arrive (2*interval)`,
i.e. not a single further 0.5 s tick is slept once the request is visible, so
the wait ends within one poll tick instead of waiting out the remaining
interval — and the next loop iteration services only that account: it emits
exactly one `single_update_signal` for "B" (no full update) and clears the
pending request. -/
theorem single_request_preempts_wait (parseTime : String → Option Int)
    (now tnow : Int) (aresp : AccountsResponse) (gresp : GraphQLResponse)
    (q : Account → UsageData) (order : List Account) (cst : ClientState)
    (st : RefreshThreadState) (b : String) (interval arrive : Nat)
    (hb : st.target_account = some b) (hrun : st.is_running = true) :
    waitLoopSleeps st.is_running arrive (2 * interval) 0 = min arrive (2 * interval)
    ∧ (runIteration parseTime now tnow aresp gresp q order cst st).1.target_account = none
    ∧ (runIteration parseTime now tnow aresp gresp q order cst st).2.2 =
        [SchedEvent.singleUpdate b
          (lookup? b (update_single_account parseTime now tnow aresp gresp b cst).2)] := by
  refine ⟨?_, ?_, ?_⟩
  · rw [hrun, waitLoopSleeps_running]
    simp
  · unfold runIteration
    rw [hb]
  · unfold runIteration
    rw [hb]

/-- Witness for C8: interval 60 s, request visible at check 3 — exactly 3 of
the 120 possible sleeps happen. -/
theorem single_request_preempts_wait_witness :
    waitLoopSleeps (RefreshThreadState.mk true (some "B")).is_running 3 (2 * 60) 0 =
      min 3 (2 * 60) :=
  (single_request_preempts_wait pT 0 0 aresp0 gresp0 qBoom [] ⟨[], [], []⟩
    ⟨true, some "B"⟩ "B" 60 3 rfl rfl).1
